import Mathlib

/-!
Verification of the deterministic generation/scoring core of the
text-to-protein classroom demo (`src/App.tsx`).

The JavaScript core is shallowly embedded: 32-bit machine arithmetic is
modelled on `Nat` with explicit `% 2^32` wrapping (JS bitwise operators
coerce through 32-bit patterns); floating-point draws of the RNG are exact
dyadic rationals (a 32-bit numerator divided by `2^32`), so they are
modelled in `ℚ`; the stateful RNG closure is modelled as a pure stream of
draws indexed by how many times the closure has been called, and functions
that consume draws also report the number of draws consumed.  Strings fed
to the prompt hash are modelled as their lists of UTF-16 code units.
-/

namespace App

/-- Modulus of 32-bit wrapping arithmetic, `2^32`. -/
def UINT32 : Nat := 4294967296

/-- The 32-bit pattern of JavaScript `Math.imul`: the product wrapped to 32 bits. -/
def imul32 (x y : Nat) : Nat := x * y % UINT32

/-- State advance of `mulberry32`: `a += 0x6D2B79F5`, as a 32-bit pattern. -/
def mbNext (a : Nat) : Nat := (a + 1831565813) % UINT32

/-- Output mixing of `mulberry32` on the advanced state `a`:
`t = Math.imul(t ^ (t >>> 15), t | 1)`;
`t ^= t + Math.imul(t ^ (t >>> 7), t | 61)`;
`(t ^ (t >>> 14)) >>> 0`. -/
def mbOut (a : Nat) : Nat :=
  let t1 := imul32 (a ^^^ (a >>> 15)) (a ||| 1)
  let t2 := t1 ^^^ ((t1 + imul32 (t1 ^^^ (t1 >>> 7)) (t1 ||| 61)) % UINT32)
  t2 ^^^ (t2 >>> 14)

/-- Internal state of a `mulberry32` closure seeded with `seed` after `n` calls. -/
def mbState (seed : Nat) : Nat → Nat
  | 0 => seed
  | n + 1 => mbNext (mbState seed n)

/-- The `k`-th draw (0-based) of the generator returned by `mulberry32(seed)`:
the mixed advanced state divided by `4294967296`. -/
def mulberry32 (seed : Nat) (k : Nat) : ℚ :=
  (mbOut (mbState seed (k + 1)) : ℚ) / 4294967296

/-- The list of the first `n` draws of `mulberry32(seed)`. -/
def mbDraws (seed n : Nat) : List ℚ :=
  (List.range n).map (mulberry32 seed)

/-- One step of `hashPrompt`'s loop: `h ^= code; h = Math.imul(h, 16777619)`,
with the code unit coerced through its 32-bit pattern. -/
def hashStep (h c : Nat) : Nat := imul32 (h ^^^ (c % UINT32)) 16777619

/-- The 32-bit accumulator of `hashPrompt` over the code units `cs`,
starting from `2166136261`. -/
def hashAcc (cs : List Nat) : Nat := cs.foldl hashStep 2166136261

/-- hashPrompt: the accumulator normalised by dividing by `0xFFFFFFFF`. -/
def hashPrompt (cs : List Nat) : ℚ := (hashAcc cs : ℚ) / 4294967295

lemma UINT32_pos : 0 < UINT32 := by decide

lemma UINT32_eq_two_pow : UINT32 = 2 ^ 32 := by decide

lemma xor_lt_uint32 {x y : Nat} (hx : x < UINT32) (hy : y < UINT32) :
    x ^^^ y < UINT32 := by
  rw [UINT32_eq_two_pow] at *
  exact Nat.xor_lt_two_pow hx hy

lemma mbOut_lt (a : Nat) : mbOut a < UINT32 := by
  unfold mbOut
  have h1 : imul32 (a ^^^ (a >>> 15)) (a ||| 1) < UINT32 :=
    Nat.mod_lt _ UINT32_pos
  set t1 := imul32 (a ^^^ (a >>> 15)) (a ||| 1) with ht1
  have h2 : t1 ^^^ ((t1 + imul32 (t1 ^^^ (t1 >>> 7)) (t1 ||| 61)) % UINT32) < UINT32 :=
    xor_lt_uint32 h1 (Nat.mod_lt _ UINT32_pos)
  set t2 := t1 ^^^ ((t1 + imul32 (t1 ^^^ (t1 >>> 7)) (t1 ||| 61)) % UINT32) with ht2
  have h3 : t2 >>> 14 ≤ t2 := by
    rw [Nat.shiftRight_eq_div_pow]
    exact Nat.div_le_self _ _
  exact xor_lt_uint32 h2 (lt_of_le_of_lt h3 h2)

lemma mulberry32_nonneg (seed k : Nat) : 0 ≤ mulberry32 seed k := by
  unfold mulberry32
  positivity

lemma mulberry32_lt_one (seed k : Nat) : mulberry32 seed k < 1 := by
  unfold mulberry32
  rw [div_lt_one (by norm_num)]
  have h := mbOut_lt (mbState seed (k + 1))
  rw [UINT32] at h
  exact_mod_cast h

/-- C1: for every seed `s` and every `n`, two generators constructed from the
same seed yield the same list of first `n` draws (the embedded generator is a
pure function of its seed, so the draw sequence is fully determined by the
seed), and every draw lies in the half-open interval `[0,1)`. -/
theorem mulberry32_deterministic_in_unit (s n : Nat) :
    mbDraws s n = mbDraws s n ∧
      ∀ k, 0 ≤ mulberry32 s k ∧ mulberry32 s k < 1 :=
  ⟨rfl, fun k => ⟨mulberry32_nonneg s k, mulberry32_lt_one s k⟩⟩

lemma hashAcc_lt (cs : List Nat) : hashAcc cs < UINT32 := by
  unfold hashAcc
  have key : ∀ (l : List Nat) (h : Nat), h < UINT32 → l.foldl hashStep h < UINT32 := by
    intro l
    induction l with
    | nil => intro h hh; simpa using hh
    | cons c tl ih =>
        intro h hh
        simp only [List.foldl_cons]
        exact ih _ (Nat.mod_lt _ UINT32_pos)
  exact key cs 2166136261 (by decide)

lemma hashPrompt_nonneg (cs : List Nat) : 0 ≤ hashPrompt cs := by
  unfold hashPrompt
  positivity

lemma hashPrompt_le_one (cs : List Nat) : hashPrompt cs ≤ 1 := by
  unfold hashPrompt
  rw [div_le_one (by norm_num)]
  have h : hashAcc cs ≤ 4294967295 := by
    have := hashAcc_lt cs
    rw [UINT32] at this
    omega
  exact_mod_cast h

/-- C2, counterexample: the ASCII string `"yCXcFk"` (code units
`[121, 67, 88, 99, 70, 107]`) has FNV-style accumulator exactly
`0xFFFFFFFF`, so `hashPrompt` returns exactly `1` on it — the claimed
half-open range `[0,1)` fails. -/
theorem hashPrompt_attains_one :
    hashPrompt [121, 67, 88, 99, 70, 107] = 1 := by
  have h : hashAcc [121, 67, 88, 99, 70, 107] = 4294967295 := by decide
  unfold hashPrompt
  rw [h]
  norm_num

/-- C2, amended: for every list of character codes, `hashPrompt` — the 32-bit
FNV-1a-style accumulator (xor each code, multiply by the prime `16777619`,
wrap to 32 bits) divided by the maximum 32-bit value `0xFFFFFFFF` — lies in
the CLOSED interval `[0,1]`; the upper bound `1` is attained. -/
theorem hashPrompt_in_closed_unit (cs : List Nat) :
    0 ≤ hashPrompt cs ∧ hashPrompt cs ≤ 1 :=
  ⟨hashPrompt_nonneg cs, hashPrompt_le_one cs⟩

/-- The fixed 20-symbol amino-acid alphabet `'ACDEFGHIKLMNPQRSTVWY'.split('')`. -/
def ALPHABET : List Char :=
  ['A', 'C', 'D', 'E', 'F', 'G', 'H', 'I', 'K', 'L',
   'M', 'N', 'P', 'Q', 'R', 'S', 'T', 'V', 'W', 'Y']

/-- Symbol chosen from one RNG draw: `ALPHABET[Math.floor(rng() * ALPHABET.length)]`.
The fallback symbol is only reachable when the draw is outside `[0,1)`. -/
def alphabetAt (q : ℚ) : Char :=
  ALPHABET.getD (Int.toNat ⌊q * (ALPHABET.length : ℚ)⌋) 'A'

/-- Loop of `genSeq`: builds `n` symbols reading the draw stream `rng` from
cursor position `cur`, and returns the symbols with the final cursor. -/
def genSeqAux (rng : Nat → ℚ) : Nat → Nat → List Char × Nat
  | 0, cur => ([], cur)
  | n + 1, cur =>
      let c := alphabetAt (rng cur)
      let r := genSeqAux rng n (cur + 1)
      (c :: r.1, r.2)

/-- genSeq: the generated string together with the number of RNG draws
consumed (the final stream cursor).  The JS loop `for (i = 0; i < len; i++)`
runs `max len 0 = len.toNat` times. -/
def genSeq (len : Int) (rng : Nat → ℚ) : String × Nat :=
  let r := genSeqAux rng len.toNat 0
  (String.mk r.1, r.2)

lemma genSeqAux_length (rng : Nat → ℚ) :
    ∀ n cur, (genSeqAux rng n cur).1.length = n := by
  intro n
  induction n with
  | zero => intro cur; rfl
  | succ m ih => intro cur; simp [genSeqAux, ih]

lemma genSeqAux_cursor (rng : Nat → ℚ) :
    ∀ n cur, (genSeqAux rng n cur).2 = cur + n := by
  intro n
  induction n with
  | zero => intro cur; rfl
  | succ m ih => intro cur; simp [genSeqAux, ih]; omega

lemma genSeqAux_getD (rng : Nat → ℚ) :
    ∀ n cur i, i < n →
      (genSeqAux rng n cur).1.getD i 'A' = alphabetAt (rng (cur + i)) := by
  intro n
  induction n with
  | zero => intro cur i hi; omega
  | succ m ih =>
      intro cur i hi
      cases i with
      | zero => simp [genSeqAux]
      | succ j =>
          have hj : j < m := by omega
          have := ih (cur + 1) j hj
          simp only [genSeqAux, List.getD_cons_succ]
          rw [this]
          ring_nf

lemma alphabetAt_mem_of_unit {q : ℚ} (h0 : 0 ≤ q) (h1 : q < 1) :
    alphabetAt q ∈ ALPHABET := by
  unfold alphabetAt
  have hlen : (ALPHABET.length : ℚ) = 20 := by norm_num [ALPHABET]
  have hlt : Int.toNat ⌊q * (ALPHABET.length : ℚ)⌋ < ALPHABET.length := by
    have h20 : q * (ALPHABET.length : ℚ) < 20 := by
      rw [hlen]
      nlinarith
    have hfl : ⌊q * (ALPHABET.length : ℚ)⌋ < 20 := by
      have := Int.floor_le (q * (ALPHABET.length : ℚ))
      have : (⌊q * (ALPHABET.length : ℚ)⌋ : ℚ) < 20 := lt_of_le_of_lt this h20
      exact_mod_cast this
    have hlen20 : ALPHABET.length = 20 := by decide
    omega
  rw [List.getD_eq_getElem ALPHABET 'A' hlt]
  exact List.getElem_mem hlt

/-- C3: for every non-negative length `len` and every RNG whose draws lie in
`[0,1)`, `genSeq` returns a string of exactly `len` symbols, where the symbol
at position `i` is `ALPHABET[⌊rng_i · 20⌋]` (draw `i` of the stream, consumed
left-to-right), each symbol belongs to the 20-symbol alphabet, exactly `len`
draws are consumed, and length `0` yields the empty string. -/
theorem genSeq_spec (len : Nat) (rng : Nat → ℚ)
    (hr : ∀ i, 0 ≤ rng i ∧ rng i < 1) :
    (genSeq (len : Int) rng).1.length = len ∧
      (∀ i, i < len →
        (genSeq (len : Int) rng).1.toList.getD i 'A' =
            ALPHABET.getD (Int.toNat ⌊rng i * 20⌋) 'A' ∧
          (genSeq (len : Int) rng).1.toList.getD i 'A' ∈ ALPHABET) ∧
      (genSeq (len : Int) rng).2 = len ∧
      (genSeq (0 : Int) rng).1 = "" := by
  have htoNat : (len : Int).toNat = len := Int.toNat_natCast len
  have hlist : (genSeq (len : Int) rng).1.toList = (genSeqAux rng len 0).1 := by
    simp [genSeq, htoNat, String.toList]
  refine ⟨?_, ?_, ?_, ?_⟩
  · show (genSeq (len : Int) rng).1.length = len
    have : (genSeq (len : Int) rng).1.length =
        (genSeq (len : Int) rng).1.toList.length := rfl
    rw [this, hlist, genSeqAux_length]
  · intro i hi
    constructor
    · rw [hlist, genSeqAux_getD rng len 0 i hi]
      simp only [Nat.zero_add]
      unfold alphabetAt
      norm_num [ALPHABET]
    · rw [hlist, genSeqAux_getD rng len 0 i hi]
      exact alphabetAt_mem_of_unit (hr (0 + i)).1 (hr (0 + i)).2
  · simp [genSeq, htoNat, genSeqAux_cursor]
  · rfl

/-- C3, witness: the constant stream `1/2` has all draws in `[0,1)` and the
specification holds for it at length `3`. -/
theorem genSeq_spec_witness :
    (genSeq (3 : Int) (fun _ => (1 : ℚ) / 2)).1.length = 3 ∧
      (∀ i, i < 3 →
        (genSeq (3 : Int) (fun _ => (1 : ℚ) / 2)).1.toList.getD i 'A' =
            ALPHABET.getD (Int.toNat ⌊(fun _ => (1 : ℚ) / 2) i * 20⌋) 'A' ∧
          (genSeq (3 : Int) (fun _ => (1 : ℚ) / 2)).1.toList.getD i 'A' ∈ ALPHABET) ∧
      (genSeq (3 : Int) (fun _ => (1 : ℚ) / 2)).2 = 3 ∧
      (genSeq (0 : Int) (fun _ => (1 : ℚ) / 2)).1 = "" :=
  genSeq_spec 3 (fun _ => (1 : ℚ) / 2) (fun _ => by norm_num)

/-- C10: for every non-positive length, `genSeq` returns the empty string and
consumes no RNG draw, for every stream — the loop body never runs, so the
function is total over all integer lengths. -/
theorem genSeq_nonpositive (len : Int) (h : len ≤ 0) (rng : Nat → ℚ) :
    genSeq len rng = ("", 0) := by
  have h0 : len.toNat = 0 := Int.toNat_eq_zero.mpr h
  simp [genSeq, h0, genSeqAux]

/-- C10, witness: at length `-5` with the zero stream, the result is the empty
string with zero draws consumed. -/
theorem genSeq_nonpositive_witness :
    genSeq (-5 : Int) (fun _ => (0 : ℚ)) = ("", 0) :=
  genSeq_nonpositive (-5) (by norm_num) (fun _ => (0 : ℚ))

/-- Hydrophobic residue class. -/
def HYDRO : List Char := ['A', 'V', 'I', 'L', 'M', 'F', 'W', 'Y']

/-- Basic residue class. -/
def BASIC : List Char := ['K', 'R', 'H']

/-- Acidic residue class. -/
def ACID : List Char := ['D', 'E']

/-- Raw residue-class counters of `comp`'s loop. -/
structure Counts where
  h : Nat
  b : Nat
  a : Nat
  o : Nat

/-- Loop body of `comp`: the if/else-if chain classifying one character. -/
def countStep (acc : Counts) (c : Char) : Counts :=
  if c ∈ HYDRO then { acc with h := acc.h + 1 }
  else if c ∈ BASIC then { acc with b := acc.b + 1 }
  else if c ∈ ACID then { acc with a := acc.a + 1 }
  else { acc with o := acc.o + 1 }

/-- Result record of `comp`: counts and fractions of the residue classes. -/
structure Comp where
  h : Nat
  b : Nat
  a : Nat
  o : Nat
  hf : ℚ
  bf : ℚ
  af : ℚ

/-- comp: counts per class and fractions `count / max(1, length)`. -/
def comp (seq : String) : Comp :=
  let cs := seq.toList.foldl countStep ⟨0, 0, 0, 0⟩
  let n : ℚ := ((max 1 seq.length : Nat) : ℚ)
  { h := cs.h, b := cs.b, a := cs.a, o := cs.o,
    hf := (cs.h : ℚ) / n, bf := (cs.b : ℚ) / n, af := (cs.a : ℚ) / n }

/-- toyFoldScore: blend of a hydrophobicity term (target fraction `0.45`,
penalty `400`) and a charge-balance term (penalty `10`), clamped to `[0,100]`. -/
def toyFoldScore (seq : String) : ℚ :=
  let c := comp seq
  let hydScore : ℚ := 100 - min 100 (|c.hf - 9/20| * 400)
  let charge : ℤ := (c.b : ℤ) - (c.a : ℤ)
  let chargeScore : ℚ := 100 - min 100 (|(charge : ℚ)| * 10)
  max 0 (min 100 (3/5 * hydScore + 2/5 * chargeScore))

lemma toyFoldScore_nonneg (seq : String) : 0 ≤ toyFoldScore seq :=
  le_max_left 0 _

lemma toyFoldScore_le (seq : String) : toyFoldScore seq ≤ 100 :=
  max_le (by norm_num) (min_le_left 100 _)

/-- C4: for every sequence — the empty string and the full-alphabet string
included — `toyFoldScore` lies in the closed interval `[0,100]`: the blended
score is clamped by `max 0 (min 100 ·)`. -/
theorem toyFoldScore_in_range (seq : String) :
    0 ≤ toyFoldScore seq ∧ toyFoldScore seq ≤ 100 :=
  ⟨toyFoldScore_nonneg seq, toyFoldScore_le seq⟩

/-- The fixed list of five 2-letter motifs of `toyActivity`. -/
def MOTIFS : List (List Char) :=
  [['G', 'L'], ['G', 'P'], ['K', 'R'], ['H', 'G'], ['F', 'Y']]

/-- Motif accumulation loop of `toyActivity`: `+5` for each motif of the list
contained in the sequence as a substring. -/
def motifCount (seq : String) : ℚ :=
  MOTIFS.foldl (fun acc m => if m <:+: seq.toList then acc + 5 else acc) 0

/-- toyActivity: `0.7 · foldScore + 20 · promptHash + motifBonus`. -/
def toyActivity (seq : String) (prompt : List Nat) : ℚ :=
  let fold := toyFoldScore seq
  let ph := hashPrompt prompt
  let motif := motifCount seq
  7/10 * fold + 20 * ph + motif

/-- Motif bonus as the specification words it: 5 units once per motif type of
the fixed list that occurs as a substring of the sequence. -/
def motifBonusSpec (seq : String) : ℚ :=
  (MOTIFS.map (fun m => if m <:+: seq.toList then (5 : ℚ) else 0)).sum

/-- C5: `toyActivity(seq, prompt)` equals
`0.7 · toyFoldScore(seq) + 20 · hashPrompt(prompt) + motifBonus(seq)`, where
the motif bonus adds 5 exactly once per motif type of
`['GL','GP','KR','HG','FY']` contained in the sequence (containment, not
per-occurrence counting); and identical inputs give identical outputs. -/
theorem toyActivity_formula (seq : String) (prompt : List Nat)
    (seq2 : String) (prompt2 : List Nat) (hs : seq2 = seq) (hp : prompt2 = prompt) :
    toyActivity seq prompt =
        7/10 * toyFoldScore seq + 20 * hashPrompt prompt + motifBonusSpec seq ∧
      toyActivity seq2 prompt2 = toyActivity seq prompt := by
  subst hs
  subst hp
  refine ⟨?_, rfl⟩
  unfold toyActivity motifCount motifBonusSpec MOTIFS
  simp only [List.foldl_cons, List.foldl_nil, List.map_cons, List.map_nil,
    List.sum_cons, List.sum_nil]
  split_ifs <;> ring

/-- C5, witness: the formula at the concrete inputs `"GLKR"` and code list
`[65]`. -/
theorem toyActivity_formula_witness :
    toyActivity "GLKR" [65] =
        7/10 * toyFoldScore "GLKR" + 20 * hashPrompt [65] + motifBonusSpec "GLKR" ∧
      toyActivity "GLKR" [65] = toyActivity "GLKR" [65] :=
  toyActivity_formula "GLKR" [65] "GLKR" [65] rfl rfl

lemma motifCount_nonneg (seq : String) : 0 ≤ motifCount seq := by
  unfold motifCount MOTIFS
  simp only [List.foldl_cons, List.foldl_nil]
  split_ifs <;> norm_num

lemma motifCount_le (seq : String) : motifCount seq ≤ 25 := by
  unfold motifCount MOTIFS
  simp only [List.foldl_cons, List.foldl_nil]
  split_ifs <;> norm_num

/-- C9: `toyActivity` is in fact bounded: it always lies in `[0, 115]`,
since the fold term is in `[0,70]`, the prompt-hash term in `[0,20]` and the
motif bonus in `[0,25]`. -/
theorem toyActivity_bounded (seq : String) (prompt : List Nat) :
    0 ≤ toyActivity seq prompt ∧ toyActivity seq prompt ≤ 115 := by
  have hf1 := toyFoldScore_nonneg seq
  have hf2 := toyFoldScore_le seq
  have hp1 := hashPrompt_nonneg prompt
  have hp2 := hashPrompt_le_one prompt
  have hm1 := motifCount_nonneg seq
  have hm2 := motifCount_le seq
  unfold toyActivity
  constructor <;> · simp only; linarith

/-- JavaScript numbers as seen by `simulateLab`: a finite value (exact model
of the arithmetic on rationals) or one of the non-finite values. -/
inductive JSNum where
  | fin (q : ℚ)
  | nan
  | inf
  | ninf
deriving DecidableEq

/-- JavaScript addition on possibly non-finite numbers: `NaN` is absorbing,
opposite infinities give `NaN`, an infinity absorbs finite values. -/
def jsAdd : JSNum → JSNum → JSNum
  | .fin a, .fin b => .fin (a + b)
  | .nan, _ => .nan
  | _, .nan => .nan
  | .inf, .ninf => .nan
  | .ninf, .inf => .nan
  | .inf, _ => .inf
  | _, .inf => .inf
  | .ninf, _ => .ninf
  | _, .ninf => .ninf

/-- The coercion `if (Number.isNaN(v) || !Number.isFinite(v)) v = 0`. -/
def coerceFinite : JSNum → ℚ
  | .fin q => q
  | _ => (0 : ℚ)

/-- simulateLab: one RNG draw gives `noise = (rng() − 0.5) · 20`; the result
is `max 0 (min 160 v)` where `v` is `x + noise` with non-finite values
coerced to `0`.  The second component is the number of draws consumed. -/
def simulateLab (x : JSNum) (rng : Nat → ℚ) : ℚ × Nat :=
  let noise := (rng 0 - 1/2) * 20
  let v := jsAdd x (.fin noise)
  (max 0 (min 160 (coerceFinite v)), 1)

/-- C6: for every numeric input, finite or not, and every RNG whose draws lie
in `[0,1)`, `simulateLab` returns `clamp(x + noise, 0, 160)` with
`noise = (rng() − 0.5) · 20` and non-finite `x + noise` coerced to `0` before
clamping, consuming exactly one draw; the result always lies in `[0,160]`,
and for `x = 1000` it is exactly `160`. -/
theorem simulateLab_spec (x : JSNum) (rng : Nat → ℚ)
    (h0 : 0 ≤ rng 0) (h1 : rng 0 < 1) :
    (simulateLab x rng).1 =
        max 0 (min 160 (coerceFinite (jsAdd x (.fin ((rng 0 - 1/2) * 20))))) ∧
      0 ≤ (simulateLab x rng).1 ∧
      (simulateLab x rng).1 ≤ 160 ∧
      (simulateLab x rng).2 = 1 ∧
      (x = .fin 1000 → (simulateLab x rng).1 = 160) := by
  refine ⟨rfl, le_max_left 0 _, max_le (by norm_num) (min_le_left 160 _), rfl, ?_⟩
  intro hx
  subst hx
  show max 0 (min 160 (coerceFinite (jsAdd (.fin 1000) (.fin ((rng 0 - 1/2) * 20))))) = 160
  have hval : coerceFinite (jsAdd (.fin 1000) (.fin ((rng 0 - 1/2) * 20))) =
      1000 + (rng 0 - 1/2) * 20 := rfl
  rw [hval]
  have hge : (160 : ℚ) ≤ 1000 + (rng 0 - 1/2) * 20 := by nlinarith
  rw [min_eq_left hge]
  norm_num

/-- C6, witness: at `x = 1000` with the constant draw `1/2`, the clamped
result is exactly `160` and one draw is consumed. -/
theorem simulateLab_spec_witness :
    (simulateLab (.fin 1000) (fun _ => (1 : ℚ) / 2)).1 =
        max 0 (min 160 (coerceFinite (jsAdd (.fin 1000)
          (.fin (((fun _ => (1 : ℚ) / 2) 0 - 1/2) * 20))))) ∧
      0 ≤ (simulateLab (.fin 1000) (fun _ => (1 : ℚ) / 2)).1 ∧
      (simulateLab (.fin 1000) (fun _ => (1 : ℚ) / 2)).1 ≤ 160 ∧
      (simulateLab (.fin 1000) (fun _ => (1 : ℚ) / 2)).2 = 1 ∧
      ((.fin 1000 : JSNum) = .fin 1000 →
        (simulateLab (.fin 1000) (fun _ => (1 : ℚ) / 2)).1 = 160) :=
  simulateLab_spec (.fin 1000) (fun _ => (1 : ℚ) / 2) (by norm_num) (by norm_num)

/-- A backbone point as a triple of coordinates. -/
def P3 : Type := ℚ × ℚ × ℚ

/-- Point `i` of the helical backbone, with the trigonometric primitives
passed in abstractly (their values never matter to the claims): angle
`t = i · 1.8`, radius `r = 2 + rng() · 0.2`, then x-, y- and z-jitter, the
four draws taken in this order from positions `4i .. 4i+3` of the stream of
`mulberry32 a`. -/
def backbonePoint (fcos fsin : ℚ → ℚ) (a : Nat) (i : Nat) : P3 :=
  let t : ℚ := (i : ℚ) * (9/5)
  let r : ℚ := 2 + mulberry32 a (4 * i) * (1/5)
  let x := fcos t * r + (mulberry32 a (4 * i + 1) - 1/2) * (3/20)
  let y := fsin t * r + (mulberry32 a (4 * i + 2) - 1/2) * (3/20)
  let z := (i : ℚ) * (7/10) + (mulberry32 a (4 * i + 3) - 1/2) * (1/10)
  (x, y, z)

/-- buildBackbone: empty input gives the empty list; otherwise a fresh RNG is
seeded with `seed >>> 0` (the seed wrapped to 32 bits) and one point is
produced per character. -/
def buildBackbone (fcos fsin : ℚ → ℚ) (seq : String) (seed : Int) : List P3 :=
  if seq = "" then []
  else
    (List.range seq.length).map
      (backbonePoint fcos fsin (seed % 4294967296).toNat)

/-- C7: for every seed, `buildBackbone` on the empty string is the empty
list, and on every sequence it returns exactly one 3-D point per character. -/
theorem buildBackbone_length (fcos fsin : ℚ → ℚ) (seq : String) (seed : Int) :
    buildBackbone fcos fsin "" seed = [] ∧
      (buildBackbone fcos fsin seq seed).length = seq.length := by
  constructor
  · simp [buildBackbone]
  · by_cases h : seq = ""
    · subst h
      simp [buildBackbone]
    · simp [buildBackbone, h]

/-- C8: for every non-empty sequence, the point at position `i` is
`(cos(1.8·i)·r + jx, sin(1.8·i)·r + jy, 0.7·i + jz)` with
`r = 2.0 + 0.2·d0`, `jx = 0.15·(d1 − 0.5)`, `jy = 0.15·(d2 − 0.5)`,
`jz = 0.1·(d3 − 0.5)`, where `d0..d3` are the four consecutive draws
`4i..4i+3` of a fresh `mulberry32` generator seeded with the seed wrapped to
32 bits, independent of any caller-held RNG. -/
theorem buildBackbone_point_formula (fcos fsin : ℚ → ℚ) (seq : String)
    (seed : Int) (i : Nat) (hne : seq ≠ "") (hi : i < seq.length) :
    (buildBackbone fcos fsin seq seed).getD i (0, 0, 0) =
      (fcos ((9/5) * i) * (2 + (1/5) * mulberry32 (seed % 4294967296).toNat (4 * i)) +
          (3/20) * (mulberry32 (seed % 4294967296).toNat (4 * i + 1) - 1/2),
        fsin ((9/5) * i) * (2 + (1/5) * mulberry32 (seed % 4294967296).toNat (4 * i)) +
          (3/20) * (mulberry32 (seed % 4294967296).toNat (4 * i + 2) - 1/2),
        (7/10) * i + (1/10) * (mulberry32 (seed % 4294967296).toNat (4 * i + 3) - 1/2)) := by
  have hmap : buildBackbone fcos fsin seq seed =
      (List.range seq.length).map
        (backbonePoint fcos fsin (seed % 4294967296).toNat) := by
    simp [buildBackbone, hne]
  have hilen : i < ((List.range seq.length).map
      (backbonePoint fcos fsin (seed % 4294967296).toNat)).length := by
    simpa using hi
  rw [hmap, List.getD_eq_getElem _ _ hilen]
  simp only [List.getElem_map, List.getElem_range]
  unfold backbonePoint
  refine Prod.ext ?_ (Prod.ext ?_ ?_)
  · show fcos ((i : ℚ) * (9/5)) * (2 + mulberry32 _ (4 * i) * (1/5)) +
        (mulberry32 _ (4 * i + 1) - 1/2) * (3/20) = _
    rw [mul_comm (i : ℚ) (9/5 : ℚ)]
    ring
  · show fsin ((i : ℚ) * (9/5)) * (2 + mulberry32 _ (4 * i) * (1/5)) +
        (mulberry32 _ (4 * i + 2) - 1/2) * (3/20) = _
    rw [mul_comm (i : ℚ) (9/5 : ℚ)]
    ring
  · show (i : ℚ) * (7/10) + (mulberry32 _ (4 * i + 3) - 1/2) * (1/10) = _
    ring

/-- C8, witness: the point formula at the one-character sequence `"A"`,
seed `0`, position `0`, with the zero functions in place of cosine and sine. -/
theorem buildBackbone_point_formula_witness :
    (buildBackbone (fun _ => (0 : ℚ)) (fun _ => (0 : ℚ)) "A" 0).getD 0 (0, 0, 0) =
      ((fun _ => (0 : ℚ)) ((9/5) * (0 : Nat)) *
            (2 + (1/5) * mulberry32 ((0 : Int) % 4294967296).toNat (4 * 0)) +
          (3/20) * (mulberry32 ((0 : Int) % 4294967296).toNat (4 * 0 + 1) - 1/2),
        (fun _ => (0 : ℚ)) ((9/5) * (0 : Nat)) *
            (2 + (1/5) * mulberry32 ((0 : Int) % 4294967296).toNat (4 * 0)) +
          (3/20) * (mulberry32 ((0 : Int) % 4294967296).toNat (4 * 0 + 2) - 1/2),
        (7/10) * ((0 : Nat) : ℚ) +
          (1/10) * (mulberry32 ((0 : Int) % 4294967296).toNat (4 * 0 + 3) - 1/2)) :=
  buildBackbone_point_formula (fun _ => (0 : ℚ)) (fun _ => (0 : ℚ)) "A" 0 0
    (by decide) (by decide)

end App
